import Mathlib

/-!
Verification of the action-item parsing / status-reconciliation core of the
meeting-notes application (src/app.py).

The embedding translates the Python source:
* Python str.strip()                      -> pyStrip (ASCII whitespace set)
* re.match of the bracket-status pattern  -> statusBracketMatch
* str.split(" - ", 2) + per-part strip    -> partsOfText
* datetime.strptime(s, "%Y-%m-%d")        -> strptimeYMD (returns none on ValueError);
  Python unicode digits are modeled as ASCII digits
* date.today()                            -> an explicit PyDate parameter
* ActionItemParser.parse                  -> parse   (total, as the code is)
* parseE                                  -> same algorithm with an explicit
  Except error at the one site where Python could raise (the strptime call
  inside _process_additional_parts); used to state totality of decode
* ActionItemService.update_status         -> update_status (the pure
  read-modify-write on the action_items blob; DB I/O, history insert and
  cache clearing are outside the pure core).  persisted_action_items models
  that the rewritten blob is written back only when a line matched.
-/

/-- ASCII whitespace, the characters Python str.strip removes (space, tab,
newline, vertical tab, form feed, carriage return). -/
def isPySpace (c : Char) : Bool :=
  c = ' ' || c = '\t' || c = '\n' || c = '\x0b' || c = '\x0c' || c = '\r'

/-- Char-list version of Python str.strip(). -/
def pyStripL (l : List Char) : List Char :=
  ((l.dropWhile isPySpace).reverse.dropWhile isPySpace).reverse

/-- Python str.strip(). -/
def pyStrip (s : String) : String := ⟨pyStripL s.data⟩

/-- Python str.startswith. -/
def pyStartsWith (s pre : String) : Bool := pre.data.isPrefixOf s.data

/-- Python truthiness of an optional string (None and "" are falsy). -/
def pyTruthy : Option String → Bool
  | none => false
  | some s => !s.isEmpty

/-- Split a char list at every occurrence of the character c, like Python
str.split(c) (keeps empty pieces, result is never empty). -/
def splitCh (c : Char) : List Char → List (List Char)
  | [] => [[]]
  | a :: l =>
    if a = c then [] :: splitCh c l
    else
      match splitCh c l with
      | [] => [[a]]
      | h :: t => (a :: h) :: t

/-- Join with the character c, the inverse of splitCh (Python c.join). -/
def joinCh (c : Char) : List (List Char) → List Char
  | [] => []
  | l :: ls =>
    match ls with
    | [] => l
    | _ :: _ => l ++ c :: joinCh c ls

/-- Python blob.split('\n'). -/
def pySplitNL (s : String) : List String := (splitCh '\n' s.data).map (fun l => ⟨l⟩)

/-- Python '\n'.join(lines). -/
def pyJoinNL (ls : List String) : String := ⟨joinCh '\n' (ls.map String.data)⟩

/-- A Python datetime.date value (proleptic Gregorian calendar). -/
structure PyDate where
  year : Nat
  month : Nat
  day : Nat
deriving DecidableEq, Repr

/-- Python date ordering a < b (lexicographic on year, month, day). -/
def pyDateLt (a b : PyDate) : Bool :=
  a.year < b.year
    || (a.year = b.year && (a.month < b.month || (a.month = b.month && a.day < b.day)))

/-- Gregorian leap-year rule used by Python datetime. -/
def isLeapYear (y : Nat) : Bool := y % 4 = 0 && (y % 100 ≠ 0 || y % 400 = 0)

/-- Days in a month, as validated by the Python datetime constructor. -/
def daysInMonth (y m : Nat) : Nat :=
  if m = 2 then (if isLeapYear y then 29 else 28)
  else if m = 4 || m = 6 || m = 9 || m = 11 then 30
  else 31

/-- Numeric value of a digit string. -/
def digitsVal (l : List Char) : Nat := l.foldl (fun acc c => 10 * acc + (c.toNat - 48)) 0

/-- Python datetime.strptime(s, "%Y-%m-%d") followed by .date():
the strptime regex demands exactly four digits for %Y, one or two digits in
1..12 for %m and one or two digits in 1..31 for %d, separated by literal
dashes with nothing left over; the datetime constructor then rejects year 0
and a day beyond the month length.  Returns none where Python raises
ValueError. -/
def strptimeYMD (s : String) : Option PyDate :=
  match splitCh '-' s.data with
  | [ys, ms, ds] =>
    if ys.length = 4 && ys.all Char.isDigit
        && 1 ≤ ms.length && ms.length ≤ 2 && ms.all Char.isDigit
        && 1 ≤ ds.length && ds.length ≤ 2 && ds.all Char.isDigit then
      let y := digitsVal ys
      let m := digitsVal ms
      let d := digitsVal ds
      if 1 ≤ y && 1 ≤ m && m ≤ 12 && 1 ≤ d && d ≤ 31 && d ≤ daysInMonth y m then
        some ⟨y, m, d⟩
      else none
    else none
  | _ => none

/-- validate_date_format (src/app.py:166-172): true iff strptime succeeds. -/
def validate_date_format (date_str : String) : Bool := (strptimeYMD date_str).isSome

/-- TaskStatus enum values (src/app.py:41-47). -/
def TaskStatus.PENDIENTE : String := "Pendiente"

def TaskStatus.EN_PROGRESO : String := "En Progreso"

def TaskStatus.COMPLETADO : String := "Completado"

def TaskStatus.CANCELADO : String := "Cancelado"

def TaskStatus.VENCIDO : String := "Vencido"

def TaskStatus.ABIERTO : String := "Abierto (sin fecha)"

/-- The ActionItem dataclass (src/app.py:50-60). -/
structure ActionItem where
  task : String
  assignee : Option String := none
  due_date_str : Option String := none
  is_overdue : Bool := false
  original_full_text : String := ""
  text_for_reserialization : String := ""
  meeting_id : Option Int := none
  meeting_title : Option String := none
  status : String := TaskStatus.PENDIENTE
deriving DecidableEq, Repr

/-- Scan for the first ']' (the lazy group of the pattern); '.' does not
cross a newline, so a '\n' before any ']' means no match.  Returns the
characters before the ']' and the characters after it. -/
def findClose : List Char → Option (List Char × List Char)
  | [] => none
  | c :: cs =>
    if c = ']' then some ([], cs)
    else if c = '\n' then none
    else (findClose cs).map (fun p => (c :: p.1, p.2))

/-- The anchored regex match of the bracket-status pattern used at
src/app.py:194 (a '[', a lazy non-newline group, a ']', greedy whitespace,
then a greedy non-newline group).  Returns (group 1, group 2). -/
def statusBracketMatch (s : String) : Option (String × String) :=
  match s.data with
  | '[' :: rest =>
    (findClose rest).map
      (fun p => (⟨p.1⟩, ⟨(p.2.dropWhile isPySpace).takeWhile (fun c => c ≠ '\n')⟩))
  | _ => none

/-- The separator " - " of src/app.py:203 as a char list. -/
def sepDash : List Char := [' ', '-', ' ']

/-- Leftmost occurrence of " - ": the piece before it and the piece after it,
or none when the separator does not occur. -/
def splitOnceDash : List Char → Option (List Char × List Char)
  | [] => none
  | c :: cs =>
    if sepDash.isPrefixOf (c :: cs) then some ([], (c :: cs).drop 3)
    else (splitOnceDash cs).map (fun p => (c :: p.1, p.2))

/-- Python text.split(" - ", 2) followed by stripping each part
(src/app.py:203): at most two splits, so at most three parts. -/
def partsOfText (t : String) : List String :=
  match splitOnceDash t.data with
  | none => [pyStrip t]
  | some (a, r1) =>
    match splitOnceDash r1 with
    | none => [pyStrip ⟨a⟩, pyStrip ⟨r1⟩]
    | some (b, r2) => [pyStrip ⟨a⟩, pyStrip ⟨b⟩, pyStrip ⟨r2⟩]

/-- group(1).strip() of the bracket-status match on the stripped line, or
none when the pattern does not match (current_status_from_bracket at
src/app.py:195-200). -/
def bracket_status (line : String) : Option String :=
  (statusBracketMatch (pyStrip line)).map (fun p => pyStrip p.1)

/-- text_for_parsing_parts at src/app.py:196-200: group(2).strip() when the
bracket pattern matched, otherwise the whole stripped line. -/
def working_text (line : String) : String :=
  match statusBracketMatch (pyStrip line) with
  | some p => pyStrip p.2
  | none => pyStrip line

/-- The stripped " - "-parts of the working text of a line. -/
def partsOf (line : String) : List String := partsOfText (working_text line)

/-- One iteration of the loop of _process_additional_parts
(src/app.py:224-241).  The Python branch "elif validate_date_format(part)"
and the strptime call inside it are rendered as one match on strptimeYMD,
whose some/none cases are exactly the validated/unvalidated branches. -/
def _process_one_part (today : PyDate) (action_item : ActionItem) (part : String) :
    ActionItem :=
  if pyStartsWith part "@" then
    { action_item with assignee := some ⟨part.data.drop 1⟩ }
  else
    match strptimeYMD part with
    | some due_date =>
      let action_item := { action_item with due_date_str := some part }
      if pyDateLt due_date today then { action_item with is_overdue := true }
      else action_item
    | none =>
      if pyTruthy action_item.assignee && !pyTruthy action_item.due_date_str then
        { action_item with
            assignee := some ((action_item.assignee.getD "") ++ " " ++ part) }
      else action_item

/-- _process_additional_parts (src/app.py:224-241): fold the loop body over
the parts after the task. -/
def _process_additional_parts (today : PyDate) (action_item : ActionItem)
    (parts : List String) : ActionItem :=
  parts.foldl (_process_one_part today) action_item

/-- _determine_final_status (src/app.py:243-258).  "if status_from_bracket:"
is Python truthiness, so an empty captured status falls through to the
default ladder. -/
def _determine_final_status (action_item : ActionItem)
    (status_from_bracket : Option String) : ActionItem :=
  if pyTruthy status_from_bracket then
    let sp := status_from_bracket.getD ""
    let action_item := { action_item with status := sp }
    if sp = TaskStatus.COMPLETADO || sp = TaskStatus.CANCELADO then
      { action_item with is_overdue := false }
    else action_item
  else if action_item.is_overdue then
    { action_item with status := TaskStatus.VENCIDO }
  else if pyTruthy action_item.due_date_str then
    { action_item with status := TaskStatus.PENDIENTE }
  else
    { action_item with status := TaskStatus.ABIERTO }

/-- ActionItemParser.parse (src/app.py:188-222), with date.today() passed
explicitly. -/
def parse (today : PyDate) (item_text_line : String)
    (meeting_id : Option Int := none) (meeting_title : Option String := none) :
    ActionItem :=
  let original_full_text := pyStrip item_text_line
  let current_status_from_bracket := bracket_status item_text_line
  let text_for_parsing_parts := working_text item_text_line
  let parts := partsOf item_text_line
  let action_item : ActionItem :=
    { task := parts.headD ""
      original_full_text := original_full_text
      text_for_reserialization := text_for_parsing_parts
      meeting_id := meeting_id
      meeting_title := meeting_title }
  let action_item :=
    if 2 ≤ parts.length then _process_additional_parts today action_item parts.tail
    else action_item
  _determine_final_status action_item current_status_from_bracket

/-- The loop body of _process_additional_parts with the possible Python
exception made explicit: datetime.strptime inside the validated branch
(src/app.py:233) raises ValueError when it fails to parse. -/
def _process_one_partE (today : PyDate) (action_item : ActionItem) (part : String) :
    Except String ActionItem :=
  if pyStartsWith part "@" then
    .ok { action_item with assignee := some ⟨part.data.drop 1⟩ }
  else if validate_date_format part then
    match strptimeYMD part with
    | some due_date =>
      let action_item := { action_item with due_date_str := some part }
      .ok (if pyDateLt due_date today then { action_item with is_overdue := true }
           else action_item)
    | none => .error "ValueError"
  else
    .ok
      (if pyTruthy action_item.assignee && !pyTruthy action_item.due_date_str then
        { action_item with
            assignee := some ((action_item.assignee.getD "") ++ " " ++ part) }
      else action_item)

/-- _process_additional_parts with explicit exception propagation. -/
def _process_additional_partsE (today : PyDate) (action_item : ActionItem)
    (parts : List String) : Except String ActionItem :=
  parts.foldlM (_process_one_partE today) action_item

/-- ActionItemParser.parse with the one possible uncaught Python exception
made explicit; every other operation of parse is exception free. -/
def parseE (today : PyDate) (item_text_line : String)
    (meeting_id : Option Int := none) (meeting_title : Option String := none) :
    Except String ActionItem :=
  let original_full_text := pyStrip item_text_line
  let current_status_from_bracket := bracket_status item_text_line
  let text_for_parsing_parts := working_text item_text_line
  let parts := partsOf item_text_line
  let action_item : ActionItem :=
    { task := parts.headD ""
      original_full_text := original_full_text
      text_for_reserialization := text_for_parsing_parts
      meeting_id := meeting_id
      meeting_title := meeting_title }
  (if 2 ≤ parts.length then _process_additional_partsE today action_item parts.tail
   else .ok action_item).map
    (fun action_item => _determine_final_status action_item current_status_from_bracket)

/-- The line written back for the matched item (src/app.py:465-468): the
reserializable text bare for the remove sentinel ("Quitar Estado" or an
empty/falsy status), otherwise bracketed new status plus reserializable
text.  In the source this is recomputed from original_text inside the loop
for every matched line; it depends only on original_text and new_status. -/
def rebuilt_line (today : PyDate) (original_text new_status : String) : String :=
  let parsed := parse today original_text
  if new_status = "Quitar Estado" || new_status = "" then
    parsed.text_for_reserialization
  else "[" ++ new_status ++ "] " ++ parsed.text_for_reserialization

/-- The line loop of ActionItemService.update_status (src/app.py:455-471):
every line whose stripped text equals the stripped original_text is replaced
by the rebuilt line (there is no first-match guard in the source), other
lines pass through; the boolean is the found flag. -/
def update_status_lines (today : PyDate) (original_text new_status : String) :
    List String → List String × Bool
  | [] => ([], false)
  | item_line :: rest =>
    let r := update_status_lines today original_text new_status rest
    if pyStrip item_line = pyStrip original_text then
      (rebuilt_line today original_text new_status :: r.1, true)
    else (item_line :: r.1, r.2)

/-- The pure blob transform of ActionItemService.update_status
(src/app.py:447-478): split the stored blob on newlines, run the loop,
join with newlines.  Returns (updated blob, found). -/
def update_status (today : PyDate) (current_items original_text new_status : String) :
    String × Bool :=
  let r := update_status_lines today original_text new_status (pySplitNL current_items)
  (pyJoinNL r.1, r.2)

/-- The action_items column after the operation: the source persists the
joined blob only when found is true (src/app.py:473-483); when no line
matched it returns False before the UPDATE, leaving the stored blob as it
was. -/
def persisted_action_items (today : PyDate)
    (current_items original_text new_status : String) : String :=
  let r := update_status today current_items original_text new_status
  if r.2 then r.1 else current_items

/-- Modelled from the spec: the canonical line grammar of section 6,
"[Status] Task text - @Assignee - YYYY-MM-DD", restricted to an item built
purely from a task plus optional assignee and optional due date (no status
segment), each suffix segment omitted when the field is absent.  The source
has no encoder; this definition follows the spec's words and is compared
against the source decoder parse. -/
def encodeLine (task : String) (assignee : Option String) (due : Option String) :
    String :=
  task
    ++ (match assignee with
        | some a => " - @" ++ a
        | none => "")
    ++ (match due with
        | some d => " - " ++ d
        | none => "")

/-- A string with no newline character: joining and re-splitting a blob is
the identity on such lines. -/
def nlFree (s : String) : Prop := '\n' ∉ s.data

instance (s : String) : Decidable (nlFree s) := by unfold nlFree; infer_instance

/-- A part is recognized by the loop body as a strictly-past due date:
it does not start with '@', it validates as YYYY-MM-DD, and its date is
strictly before today.  Exactly these parts set is_overdue. -/
def partIsPastDate (today : PyDate) (part : String) : Bool :=
  !pyStartsWith part "@"
    && (match strptimeYMD part with
        | some d => pyDateLt d today
        | none => false)

/-- A fixed evaluation date (2026-10-12) for the concrete witnesses and
counterexamples; the system date of the claims' examples is only assumed to
be after 2000-01-01 and before 2999-01-01. -/
def d0 : PyDate := ⟨2026, 10, 12⟩

/-- The first character, if any, is not Python whitespace. -/
def headNoWS : List Char → Bool
  | [] => true
  | c :: _ => !isPySpace c

/-- The list ends with the two characters " -" (so that appending the
" - " separator would create an earlier separator occurrence). -/
def endsSpDash (l : List Char) : Bool := ['-', ' '].isPrefixOf l.reverse

theorem splitCh_ne_nil (c : Char) (l : List Char) : splitCh c l ≠ [] := by
  induction l with
  | nil => simp [splitCh]
  | cons a l ih =>
    unfold splitCh
    by_cases h : a = c
    · simp [h]
    · simp only [if_neg h]
      cases hs : splitCh c l with
      | nil => simp
      | cons x t => simp

theorem joinCh_splitCh (c : Char) (l : List Char) : joinCh c (splitCh c l) = l := by
  induction l with
  | nil => rfl
  | cons a l ih =>
    unfold splitCh
    by_cases h : a = c
    · subst h
      simp only [if_pos rfl]
      cases hs : splitCh a l with
      | nil => exact absurd hs (splitCh_ne_nil a l)
      | cons x t =>
        rw [hs] at ih
        show joinCh a ([] :: x :: t) = a :: l
        unfold joinCh
        simpa using ih
    · simp only [if_neg h]
      cases hs : splitCh c l with
      | nil => exact absurd hs (splitCh_ne_nil c l)
      | cons x t =>
        rw [hs] at ih
        cases t with
        | nil =>
          show joinCh c [a :: x] = a :: l
          unfold joinCh
          simp only []
          unfold joinCh at ih
          simp only [] at ih
          rw [ih]
        | cons y t2 =>
          show joinCh c ((a :: x) :: y :: t2) = a :: l
          unfold joinCh
          unfold joinCh at ih
          simp only [] at ih ⊢
          rw [List.cons_append, ih]

theorem splitCh_of_not_mem {c : Char} {l : List Char} (h : c ∉ l) :
    splitCh c l = [l] := by
  induction l with
  | nil => rfl
  | cons a l ih =>
    have ha : a ≠ c := fun e => h (e ▸ List.mem_cons_self a l)
    have hl : c ∉ l := fun e => h (List.mem_cons_of_mem a e)
    unfold splitCh
    rw [if_neg ha, ih hl]

theorem splitCh_append_cons {c : Char} {x : List Char} (r : List Char) (h : c ∉ x) :
    splitCh c (x ++ c :: r) = x :: splitCh c r := by
  induction x with
  | nil =>
    show splitCh c (c :: r) = [] :: splitCh c r
    conv_lhs => unfold splitCh
    rw [if_pos rfl]
  | cons a x ih =>
    have ha : a ≠ c := fun e => h (e ▸ List.mem_cons_self a x)
    have hx : c ∉ x := fun e => h (List.mem_cons_of_mem a e)
    show splitCh c (a :: (x ++ c :: r)) = (a :: x) :: splitCh c r
    conv_lhs => unfold splitCh
    rw [if_neg ha, ih hx]

theorem splitCh_joinCh {c : Char} {ls : List (List Char)} (h0 : ls ≠ [])
    (h : ∀ x ∈ ls, c ∉ x) : splitCh c (joinCh c ls) = ls := by
  induction ls with
  | nil => exact absurd rfl h0
  | cons x t ih =>
    cases t with
    | nil =>
      show splitCh c (joinCh c [x]) = [x]
      unfold joinCh
      exact splitCh_of_not_mem (h x (List.mem_cons_self x []))
    | cons y t2 =>
      show splitCh c (joinCh c (x :: y :: t2)) = x :: y :: t2
      unfold joinCh
      simp only []
      rw [splitCh_append_cons _ (h x (List.mem_cons_self x _))]
      rw [ih (by simp) (fun z hz => h z (List.mem_cons_of_mem x hz))]

theorem not_mem_of_mem_splitCh {c : Char} {l : List Char} {x : List Char}
    (h : x ∈ splitCh c l) : c ∉ x := by
  induction l generalizing x with
  | nil =>
    simp [splitCh] at h
    simp [h]
  | cons a l ih =>
    unfold splitCh at h
    by_cases ha : a = c
    · rw [if_pos ha] at h
      rcases List.mem_cons.mp h with h1 | h1
      · simp [h1]
      · exact ih h1
    · rw [if_neg ha] at h
      cases hs : splitCh c l with
      | nil => exact absurd hs (splitCh_ne_nil c l)
      | cons z t =>
        rw [hs] at h
        rcases List.mem_cons.mp h with h1 | h1
        · subst h1
          intro hm
          rcases List.mem_cons.mp hm with h2 | h2
          · exact ha h2.symm
          · exact ih (hs ▸ List.mem_cons_self z t) h2
        · exact ih (hs ▸ List.mem_cons_of_mem z h1)

theorem string_data_mk (l : List Char) : (⟨l⟩ : String).data = l := rfl

theorem string_mk_data (s : String) : (⟨s.data⟩ : String) = s := rfl

theorem pyJoinNL_pySplitNL (s : String) : pyJoinNL (pySplitNL s) = s := by
  unfold pyJoinNL pySplitNL
  rw [List.map_map]
  have he : (String.data ∘ fun l => (⟨l⟩ : String)) = id := funext fun l => rfl
  rw [he, List.map_id, joinCh_splitCh]

theorem pySplitNL_ne_nil (s : String) : pySplitNL s ≠ [] := by
  unfold pySplitNL
  simp [splitCh_ne_nil]

theorem nlFree_of_mem_pySplitNL {s : String} {l : String} (h : l ∈ pySplitNL s) :
    nlFree l := by
  unfold pySplitNL at h
  obtain ⟨x, hx, rfl⟩ := List.mem_map.mp h
  exact not_mem_of_mem_splitCh hx

theorem pySplitNL_pyJoinNL {ls : List String} (h0 : ls ≠ [])
    (h : ∀ l ∈ ls, nlFree l) : pySplitNL (pyJoinNL ls) = ls := by
  unfold pySplitNL pyJoinNL
  rw [string_data_mk, splitCh_joinCh (by simpa using h0)
    (fun x hx => by
      obtain ⟨l, hl, rfl⟩ := List.mem_map.mp hx
      exact h l hl)]
  rw [List.map_map]
  have he : ((fun l => (⟨l⟩ : String)) ∘ String.data) = id := funext fun l => rfl
  rw [he, List.map_id]

theorem length_dropWhile_le (p : Char → Bool) (l : List Char) :
    (l.dropWhile p).length ≤ l.length := by
  induction l with
  | nil => simp [List.dropWhile]
  | cons a t ih =>
    rw [List.dropWhile]
    cases p a <;> simp <;> omega

theorem mem_of_mem_dropWhile {p : Char → Bool} {l : List Char} {x : Char}
    (h : x ∈ l.dropWhile p) : x ∈ l := by
  induction l with
  | nil => simpa [List.dropWhile] using h
  | cons a t ih =>
    rw [List.dropWhile_cons] at h
    by_cases hp : p a = true
    · rw [if_pos hp] at h
      exact List.mem_cons_of_mem a (ih h)
    · rwa [if_neg hp] at h

theorem pred_of_mem_takeWhile {p : Char → Bool} {l : List Char} {x : Char}
    (h : x ∈ l.takeWhile p) : p x = true := by
  induction l with
  | nil => simp [List.takeWhile] at h
  | cons a t ih =>
    rw [List.takeWhile_cons] at h
    by_cases hp : p a = true
    · rw [if_pos hp] at h
      rcases List.mem_cons.mp h with h1 | h1
      · rwa [h1]
      · exact ih h1
    · rw [if_neg hp] at h
      simp at h

theorem dropWhile_of_headNoWS {l : List Char} (h : headNoWS l = true) :
    l.dropWhile isPySpace = l := by
  cases l with
  | nil => rfl
  | cons a t =>
    have ha : isPySpace a = false := by
      simp only [headNoWS] at h
      simpa using h
    simp [List.dropWhile_cons, ha]

theorem pyStripL_of_headNoWS {l : List Char} (h1 : headNoWS l = true)
    (h2 : headNoWS l.reverse = true) : pyStripL l = l := by
  unfold pyStripL
  rw [dropWhile_of_headNoWS h1, dropWhile_of_headNoWS h2, List.reverse_reverse]

theorem pyStripL_length_le (l : List Char) : (pyStripL l).length ≤ l.length := by
  unfold pyStripL
  calc ((l.dropWhile isPySpace).reverse.dropWhile isPySpace).reverse.length
      = ((l.dropWhile isPySpace).reverse.dropWhile isPySpace).length := by
        rw [List.length_reverse]
    _ ≤ (l.dropWhile isPySpace).reverse.length := length_dropWhile_le _ _
    _ = (l.dropWhile isPySpace).length := by rw [List.length_reverse]
    _ ≤ l.length := length_dropWhile_le _ _

theorem mem_of_mem_pyStripL {l : List Char} {x : Char} (h : x ∈ pyStripL l) :
    x ∈ l := by
  unfold pyStripL at h
  rw [List.mem_reverse] at h
  have h2 := mem_of_mem_dropWhile h
  rw [List.mem_reverse] at h2
  exact mem_of_mem_dropWhile h2

theorem headNoWS_of_pyStripL_eq {l : List Char} (h : pyStripL l = l) :
    headNoWS l = true := by
  cases l with
  | nil => rfl
  | cons a t =>
    simp only [headNoWS, Bool.not_eq_true]
    cases hv : isPySpace a with
    | false => rfl
    | true =>
      exfalso
      have hlen : (pyStripL (a :: t)).length ≤ t.length := by
        unfold pyStripL
        rw [List.dropWhile_cons, if_pos hv]
        calc ((t.dropWhile isPySpace).reverse.dropWhile isPySpace).reverse.length
            = ((t.dropWhile isPySpace).reverse.dropWhile isPySpace).length := by
              rw [List.length_reverse]
          _ ≤ (t.dropWhile isPySpace).reverse.length := length_dropWhile_le _ _
          _ = (t.dropWhile isPySpace).length := by rw [List.length_reverse]
          _ ≤ t.length := length_dropWhile_le _ _
      rw [h] at hlen
      simp at hlen

theorem headNoWS_rev_of_pyStripL_eq {l : List Char} (h : pyStripL l = l) :
    headNoWS l.reverse = true := by
  have h1 : headNoWS l = true := headNoWS_of_pyStripL_eq h
  have hd : l.dropWhile isPySpace = l := dropWhile_of_headNoWS h1
  unfold pyStripL at h
  rw [hd] at h
  cases hr : l.reverse with
  | nil => rfl
  | cons a t =>
    rw [hr] at h
    simp only [headNoWS, Bool.not_eq_true]
    cases hv : isPySpace a with
    | false => rfl
    | true =>
      exfalso
      rw [List.dropWhile_cons, if_pos hv] at h
      have hlen := congrArg List.length h
      rw [List.length_reverse] at hlen
      have h2 : (t.dropWhile isPySpace).length ≤ t.length := length_dropWhile_le _ _
      have h3 : l.length = t.length + 1 := by
        rw [← List.length_reverse l, hr]
        rfl
      omega

theorem headNoWS_append {l r : List Char} (h : l ≠ []) :
    headNoWS (l ++ r) = headNoWS l := by
  cases l with
  | nil => exact absurd rfl h
  | cons a t => rfl


theorem isPrefixOf_append_of_isPrefixOf {x y : List Char} (z : List Char)
    (h : x.isPrefixOf y = true) : x.isPrefixOf (y ++ z) = true := by
  induction x generalizing y with
  | nil => simp [List.isPrefixOf]
  | cons a x ih =>
    cases y with
    | nil => simp [List.isPrefixOf] at h
    | cons b y =>
      simp only [List.isPrefixOf, Bool.and_eq_true] at h ⊢
      exact ⟨h.1, ih h.2⟩

theorem endsSpDash_cons {l : List Char} (a : Char) (h : endsSpDash l = true) :
    endsSpDash (a :: l) = true := by
  unfold endsSpDash at h ⊢
  rw [List.reverse_cons]
  exact isPrefixOf_append_of_isPrefixOf [a] h

theorem splitOnceDash_cons_inv {a : Char} {l : List Char}
    (h : splitOnceDash (a :: l) = none) :
    sepDash.isPrefixOf (a :: l) = false ∧ splitOnceDash l = none := by
  unfold splitOnceDash at h
  by_cases hp : sepDash.isPrefixOf (a :: l) = true
  · rw [if_pos hp] at h
    cases h
  · have hp2 : sepDash.isPrefixOf (a :: l) = false := by
      cases hv : sepDash.isPrefixOf (a :: l)
      · rfl
      · exact absurd hv hp
    rw [if_neg hp] at h
    rw [Option.map_eq_none'] at h
    exact ⟨hp2, h⟩

theorem splitOnceDash_append {xs : List Char} (ys : List Char)
    (h1 : splitOnceDash xs = none) (h2 : endsSpDash xs = false) :
    splitOnceDash (xs ++ sepDash ++ ys) = some (xs, ys) := by
  induction xs with
  | nil =>
    show splitOnceDash (sepDash ++ ys) = some ([], ys)
    have he : sepDash ++ ys = ' ' :: '-' :: ' ' :: ys := rfl
    rw [he]
    conv_lhs => unfold splitOnceDash
    rw [if_pos (by simp [sepDash, List.isPrefixOf])]
    rfl
  | cons a xs ih =>
    obtain ⟨hp, hrest⟩ := splitOnceDash_cons_inv h1
    have h2x : endsSpDash xs = false := by
      cases hv : endsSpDash xs
      · rfl
      · rw [endsSpDash_cons a hv] at h2
        cases h2
    have hpre : sepDash.isPrefixOf (a :: (xs ++ sepDash ++ ys)) = false := by
      cases xs with
      | nil =>
        show sepDash.isPrefixOf (a :: ' ' :: '-' :: ' ' :: ys) = false
        simp [sepDash, List.isPrefixOf]
      | cons e xs2 =>
        cases xs2 with
        | nil =>
          show sepDash.isPrefixOf (a :: e :: ' ' :: '-' :: ' ' :: ys) = false
          cases hv : sepDash.isPrefixOf (a :: e :: ' ' :: '-' :: ' ' :: ys) with
          | false => rfl
          | true =>
            exfalso
            simp only [sepDash, List.isPrefixOf, Bool.and_eq_true, beq_iff_eq] at hv
            obtain ⟨ha, he, -⟩ := hv
            rw [← ha, ← he] at h2
            simp [endsSpDash, List.isPrefixOf] at h2
        | cons f xs3 =>
          have harr : a :: (e :: f :: xs3 ++ sepDash ++ ys)
              = a :: e :: f :: (xs3 ++ sepDash ++ ys) := by simp
          rw [harr]
          have heq : sepDash.isPrefixOf (a :: e :: f :: (xs3 ++ sepDash ++ ys))
              = sepDash.isPrefixOf (a :: e :: f :: xs3) := by
            simp [sepDash, List.isPrefixOf]
          rw [heq]
          exact hp
    have hgoal : (a :: xs) ++ sepDash ++ ys = a :: (xs ++ sepDash ++ ys) := by simp
    rw [hgoal]
    conv_lhs => unfold splitOnceDash
    rw [if_neg (by rw [hpre]; exact Bool.false_ne_true), ih hrest h2x]
    rfl

theorem splitOnceDash_of_no_space {l : List Char} (h : (' ' : Char) ∉ l) :
    splitOnceDash l = none := by
  induction l with
  | nil => rfl
  | cons a t ih =>
    have ha : a ≠ ' ' := fun e => h (e ▸ List.mem_cons_self a t)
    have ht : (' ' : Char) ∉ t := fun e => h (List.mem_cons_of_mem a e)
    have h0 : ((' ' : Char) == a) = false :=
      beq_eq_false_iff_ne.mpr (fun e => ha e.symm)
    have hp : sepDash.isPrefixOf (a :: t) = false := by
      simp [sepDash, List.isPrefixOf, h0]
    conv_lhs => unfold splitOnceDash
    rw [if_neg (by rw [hp]; exact Bool.false_ne_true), ih ht]
    rfl

theorem process_one_part_preserves (today : PyDate) (ai : ActionItem) (p : String) :
    (_process_one_part today ai p).task = ai.task
      ∧ (_process_one_part today ai p).original_full_text = ai.original_full_text
      ∧ (_process_one_part today ai p).text_for_reserialization
          = ai.text_for_reserialization
      ∧ (_process_one_part today ai p).status = ai.status := by
  unfold _process_one_part
  by_cases h1 : pyStartsWith p "@" = true
  · simp [h1]
  · simp only [h1]
    cases h2 : strptimeYMD p with
    | some d =>
      by_cases h3 : pyDateLt d today = true <;> simp [h2, h3]
    | none =>
      by_cases h4 : (pyTruthy ai.assignee && !pyTruthy ai.due_date_str) = true <;>
        simp [h2, h4]

theorem process_parts_preserves (today : PyDate) (parts : List String)
    (ai : ActionItem) :
    (_process_additional_parts today ai parts).task = ai.task
      ∧ (_process_additional_parts today ai parts).original_full_text
          = ai.original_full_text
      ∧ (_process_additional_parts today ai parts).text_for_reserialization
          = ai.text_for_reserialization
      ∧ (_process_additional_parts today ai parts).status = ai.status := by
  induction parts generalizing ai with
  | nil => exact ⟨rfl, rfl, rfl, rfl⟩
  | cons p ps ih =>
    have hstep := process_one_part_preserves today ai p
    have hrec := ih (_process_one_part today ai p)
    unfold _process_additional_parts at hrec ⊢
    rw [List.foldl_cons]
    refine ⟨?_, ?_, ?_, ?_⟩
    · rw [hrec.1, hstep.1]
    · rw [hrec.2.1, hstep.2.1]
    · rw [hrec.2.2.1, hstep.2.2.1]
    · rw [hrec.2.2.2, hstep.2.2.2]

theorem determine_final_status_preserves (ai : ActionItem) (osp : Option String) :
    (_determine_final_status ai osp).task = ai.task
      ∧ (_determine_final_status ai osp).assignee = ai.assignee
      ∧ (_determine_final_status ai osp).due_date_str = ai.due_date_str
      ∧ (_determine_final_status ai osp).original_full_text = ai.original_full_text
      ∧ (_determine_final_status ai osp).text_for_reserialization
          = ai.text_for_reserialization := by
  unfold _determine_final_status
  by_cases h1 : pyTruthy osp = true
  · simp only [h1, if_true]
    by_cases h2 : (osp.getD "" = TaskStatus.COMPLETADO
        || osp.getD "" = TaskStatus.CANCELADO) = true <;> simp [h2]
  · simp only [h1, if_false, Bool.false_eq_true]
    by_cases h3 : ai.is_overdue = true
    · simp [h3]
    · by_cases h4 : pyTruthy ai.due_date_str = true <;> simp [h3, h4]

theorem parse_fixed_fields (today : PyDate) (line : String) (mid : Option Int)
    (mt : Option String) :
    (parse today line mid mt).task = (partsOf line).headD ""
      ∧ (parse today line mid mt).original_full_text = pyStrip line
      ∧ (parse today line mid mt).text_for_reserialization = working_text line := by
  unfold parse
  by_cases hl : 2 ≤ (partsOf line).length
  · simp only [hl, if_true]
    have hd := determine_final_status_preserves
      (_process_additional_parts today
        { task := (partsOf line).headD ""
          original_full_text := pyStrip line
          text_for_reserialization := working_text line
          meeting_id := mid
          meeting_title := mt } (partsOf line).tail)
      (bracket_status line)
    have hp := process_parts_preserves today (partsOf line).tail
      { task := (partsOf line).headD ""
        original_full_text := pyStrip line
        text_for_reserialization := working_text line
        meeting_id := mid
        meeting_title := mt }
    exact ⟨by rw [hd.1, hp.1], by rw [hd.2.2.2.1, hp.2.1], by rw [hd.2.2.2.2, hp.2.2.1]⟩
  · simp only [hl, if_false]
    have hd := determine_final_status_preserves
      { task := (partsOf line).headD ""
        original_full_text := pyStrip line
        text_for_reserialization := working_text line
        meeting_id := mid
        meeting_title := mt } (bracket_status line)
    exact ⟨hd.1, hd.2.2.2.1, hd.2.2.2.2⟩

theorem process_one_part_is_overdue (today : PyDate) (ai : ActionItem) (p : String) :
    (_process_one_part today ai p).is_overdue
      = (ai.is_overdue || partIsPastDate today p) := by
  unfold _process_one_part partIsPastDate
  by_cases h1 : pyStartsWith p "@" = true
  · simp [h1]
  · simp only [h1]
    cases h2 : strptimeYMD p with
    | some d =>
      by_cases h3 : pyDateLt d today = true
      · simp [h2, h3]
      · simp only [Bool.not_eq_true] at h3
        simp [h2, h3]
    | none =>
      by_cases h4 : (pyTruthy ai.assignee && !pyTruthy ai.due_date_str) = true <;>
        simp [h1, h2, h4]

theorem process_parts_is_overdue (today : PyDate) (parts : List String)
    (ai : ActionItem) :
    (_process_additional_parts today ai parts).is_overdue
      = (ai.is_overdue || parts.any (partIsPastDate today)) := by
  induction parts generalizing ai with
  | nil => simp [_process_additional_parts]
  | cons p ps ih =>
    unfold _process_additional_parts at ih ⊢
    rw [List.foldl_cons, ih, process_one_part_is_overdue, List.any_cons,
      Bool.or_assoc]

theorem process_one_part_due_isSome {today : PyDate} {ai : ActionItem} {p : String}
    (h : ai.due_date_str.isSome = true) :
    (_process_one_part today ai p).due_date_str.isSome = true := by
  unfold _process_one_part
  by_cases h1 : pyStartsWith p "@" = true
  · simpa [h1] using h
  · simp only [h1]
    cases h2 : strptimeYMD p with
    | some d =>
      by_cases h3 : pyDateLt d today = true <;> simp [h2, h3]
    | none =>
      by_cases h4 : (pyTruthy ai.assignee && !pyTruthy ai.due_date_str) = true <;>
        simpa [h2, h4] using h

theorem process_parts_due_isSome {today : PyDate} {parts : List String}
    {ai : ActionItem} (h : ai.due_date_str.isSome = true) :
    (_process_additional_parts today ai parts).due_date_str.isSome = true := by
  induction parts generalizing ai with
  | nil => exact h
  | cons p ps ih =>
    unfold _process_additional_parts at ih ⊢
    rw [List.foldl_cons]
    exact ih (process_one_part_due_isSome h)

theorem process_parts_due_some_of_any {today : PyDate} {parts : List String}
    {ai : ActionItem} (h : parts.any (partIsPastDate today) = true) :
    (_process_additional_parts today ai parts).due_date_str.isSome = true := by
  induction parts generalizing ai with
  | nil => simp at h
  | cons p ps ih =>
    unfold _process_additional_parts at ih ⊢
    rw [List.foldl_cons]
    rw [List.any_cons, Bool.or_eq_true] at h
    rcases h with h | h
    · apply process_parts_due_isSome
      unfold partIsPastDate at h
      rw [Bool.and_eq_true] at h
      obtain ⟨hat, hd⟩ := h
      rw [Bool.not_eq_eq_eq_not] at hat
      unfold _process_one_part
      simp only [hat]
      cases h2 : strptimeYMD p with
      | some d => by_cases h3 : pyDateLt d today = true <;> simp [h2, h3]
      | none => rw [h2] at hd; simp at hd
    · exact ih h

theorem process_parts_overdue_of_due_none {today : PyDate} {parts : List String}
    {ai : ActionItem}
    (h : (_process_additional_parts today ai parts).due_date_str = none) :
    (_process_additional_parts today ai parts).is_overdue = ai.is_overdue := by
  rw [process_parts_is_overdue]
  cases hv : parts.any (partIsPastDate today) with
  | false => simp
  | true =>
    have := @process_parts_due_some_of_any today parts ai hv
    rw [h] at this
    simp at this

theorem process_one_part_due_valid {today : PyDate} {ai : ActionItem} {p : String}
    (h : ∀ s, ai.due_date_str = some s → validate_date_format s = true) :
    ∀ s, (_process_one_part today ai p).due_date_str = some s →
      validate_date_format s = true := by
  intro s hs
  unfold _process_one_part at hs
  by_cases h1 : pyStartsWith p "@" = true
  · simp only [h1, if_true] at hs
    exact h s hs
  · simp only [h1] at hs
    cases h2 : strptimeYMD p with
    | some d =>
      rw [h2] at hs
      have hps : p = s := by
        by_cases h3 : pyDateLt d today = true
        · simp [h3] at hs; exact hs
        · simp [h3] at hs; exact hs
      rw [← hps]
      unfold validate_date_format
      rw [h2]
      rfl
    | none =>
      rw [h2] at hs
      by_cases h4 : (pyTruthy ai.assignee && !pyTruthy ai.due_date_str) = true
      · simp only [h4, if_true] at hs
        exact h s hs
      · simp only [h4, if_false, Bool.false_eq_true] at hs
        exact h s hs

theorem process_parts_due_valid {today : PyDate} {parts : List String}
    {ai : ActionItem}
    (h : ∀ s, ai.due_date_str = some s → validate_date_format s = true) :
    ∀ s, (_process_additional_parts today ai parts).due_date_str = some s →
      validate_date_format s = true := by
  induction parts generalizing ai with
  | nil => exact h
  | cons p ps ih =>
    unfold _process_additional_parts at ih ⊢
    rw [List.foldl_cons]
    exact ih (process_one_part_due_valid h)

theorem validate_not_empty {s : String} (h : validate_date_format s = true) :
    s.isEmpty = false := by
  cases hv : s.isEmpty with
  | false => rfl
  | true =>
    rw [String.isEmpty_iff s] at hv
    rw [hv] at h
    exact absurd h (by decide)

theorem nlFree_pyStrip {s : String} (h : nlFree s) : nlFree (pyStrip s) := by
  unfold nlFree pyStrip at *
  intro hm
  exact h (mem_of_mem_pyStripL hm)

theorem statusBracketMatch_snd_nlFree {s : String} {p : String × String}
    (h : statusBracketMatch s = some p) : nlFree p.2 := by
  unfold statusBracketMatch at h
  split at h
  · rw [Option.map_eq_some'] at h
    obtain ⟨q, hq, hp⟩ := h
    rw [← hp]
    unfold nlFree
    intro hm
    have := pred_of_mem_takeWhile hm
    simp at this
  · cases h

theorem nlFree_working_text {t : String} (h : nlFree (pyStrip t)) :
    nlFree (working_text t) := by
  unfold working_text
  cases hm : statusBracketMatch (pyStrip t) with
  | none => exact h
  | some p => exact nlFree_pyStrip (statusBracketMatch_snd_nlFree hm)

theorem nlFree_rebuilt_line (today : PyDate) {t ns : String}
    (ht : nlFree (pyStrip t)) (hns : nlFree ns) :
    nlFree (rebuilt_line today t ns) := by
  unfold rebuilt_line
  have htfr := (parse_fixed_fields today t none none).2.2
  have hwt : nlFree (working_text t) := nlFree_working_text ht
  by_cases hrem : (ns = "Quitar Estado" || ns = "") = true
  · simp only [hrem, if_true]
    rw [htfr]
    exact hwt
  · simp only [hrem, if_false, Bool.false_eq_true]
    rw [htfr]
    unfold nlFree
    rw [String.data_append, String.data_append, String.data_append]
    intro hm
    rcases List.mem_append.mp hm with hm1 | hm1
    · rcases List.mem_append.mp hm1 with hm2 | hm2
      · rcases List.mem_append.mp hm2 with hm3 | hm3
        · exact absurd hm3 (by decide)
        · exact hns hm3
      · exact absurd hm2 (by decide)
    · exact hwt hm1

theorem update_status_lines_eq (today : PyDate) (t ns : String) (ls : List String) :
    update_status_lines today t ns ls
      = (ls.map (fun l => if pyStrip l = pyStrip t then rebuilt_line today t ns else l),
         ls.any (fun l => pyStrip l == pyStrip t)) := by
  induction ls with
  | nil => rfl
  | cons l ls ih =>
    unfold update_status_lines
    rw [ih]
    by_cases h : pyStrip l = pyStrip t
    · simp [h]
    · simp [h]

theorem map_eq_self_of {α : Type} {f : α → α} {l : List α} (h : ∀ x ∈ l, f x = x) :
    l.map f = l := by
  induction l with
  | nil => rfl
  | cons a t ih =>
    rw [List.map_cons, h a (List.mem_cons_self a t),
      ih (fun x hx => h x (List.mem_cons_of_mem a hx))]

theorem update_status_spec (today : PyDate) (blob t ns : String) (hns : nlFree ns) :
    pySplitNL (update_status today blob t ns).1
        = (pySplitNL blob).map
            (fun l => if pyStrip l = pyStrip t then rebuilt_line today t ns else l)
      ∧ (update_status today blob t ns).2
          = (pySplitNL blob).any (fun l => pyStrip l == pyStrip t) := by
  unfold update_status
  rw [update_status_lines_eq]
  refine ⟨?_, rfl⟩
  show pySplitNL (pyJoinNL _) = _
  apply pySplitNL_pyJoinNL
  · simp [pySplitNL_ne_nil]
  · intro l hl
    obtain ⟨x, hx, rfl⟩ := List.mem_map.mp hl
    by_cases hm : pyStrip x = pyStrip t
    · rw [if_pos hm]
      apply nlFree_rebuilt_line today _ hns
      rw [← hm]
      exact nlFree_pyStrip (nlFree_of_mem_pySplitNL hx)
    · rw [if_neg hm]
      exact nlFree_of_mem_pySplitNL hx

theorem update_status_of_no_match {today : PyDate} {blob t ns : String}
    (h : ∀ l ∈ pySplitNL blob, pyStrip l ≠ pyStrip t) :
    update_status today blob t ns = (blob, false) := by
  unfold update_status
  rw [update_status_lines_eq]
  have hmap : (pySplitNL blob).map
      (fun l => if pyStrip l = pyStrip t then rebuilt_line today t ns else l)
      = pySplitNL blob :=
    map_eq_self_of (fun x hx => if_neg (h x hx))
  have hany : (pySplitNL blob).any (fun l => pyStrip l == pyStrip t) = false := by
    rw [List.any_eq_false]
    intro x hx
    simpa using h x hx
  rw [hmap, hany]
  show (pyJoinNL (pySplitNL blob), false) = (blob, false)
  rw [pyJoinNL_pySplitNL]

/-- C2: No-op on stale key.  When no line of the blob has trimmed text equal
to the trimmed target, ActionItemService.update_status reports found = false,
the rebuilt blob equals the original blob unchanged, and the persisted
action_items column is the unmodified blob (the source returns False before
the UPDATE statement). -/
theorem update_status_stale_key_noop (today : PyDate) (blob t ns : String)
    (h : ∀ l ∈ pySplitNL blob, pyStrip l ≠ pyStrip t) :
    update_status today blob t ns = (blob, false)
      ∧ persisted_action_items today blob t ns = blob := by
  have h1 := @update_status_of_no_match today blob t ns h
  refine ⟨h1, ?_⟩
  unfold persisted_action_items
  rw [h1]
  rfl

theorem update_status_stale_key_noop_witness :
    (∀ l ∈ pySplitNL "A\nB", pyStrip l ≠ pyStrip "zzz")
      ∧ update_status d0 "A\nB" "zzz" "Completado" = ("A\nB", false)
      ∧ persisted_action_items d0 "A\nB" "zzz" "Completado" = "A\nB" := by
  have hh : ∀ l ∈ pySplitNL "A\nB", pyStrip l ≠ pyStrip "zzz" := by decide
  have hc := update_status_stale_key_noop d0 "A\nB" "zzz" "Completado" hh
  exact ⟨hh, hc.1, hc.2⟩

/-- C1 counterexample: the loop of ActionItemService.update_status has no
first-match guard, so on blob "A\nA\nB" with target "A" BOTH "A" lines are
rewritten; the second "A" line does not pass through unchanged as the claim
states. -/
theorem update_status_first_match_only_cex :
    (update_status d0 "A\nA\nB" "A" "Completado").1
        = "[Completado] A\n[Completado] A\nB"
      ∧ (pySplitNL (update_status d0 "A\nA\nB" "A" "Completado").1).get? 1
          = some "[Completado] A"
      ∧ ("[Completado] A" : String) ≠ "A" := by decide

/-- C1 (amended): the status-change operation rewrites EVERY line whose
trimmed text equals the trimmed target — each to the same rebuilt line —
and every non-matching line passes through into the updated blob unchanged,
in position; found is true iff some line matches.  (Stated for a new status
without a newline character, which would otherwise re-fragment the blob.) -/
theorem update_status_rewrites_every_match (today : PyDate) (blob t ns : String)
    (hns : nlFree ns) (i : Nat) (hi : i < (pySplitNL blob).length) :
    (pySplitNL (update_status today blob t ns).1).length = (pySplitNL blob).length
      ∧ (pySplitNL (update_status today blob t ns).1).get? i
          = some (if pyStrip ((pySplitNL blob).get ⟨i, hi⟩) = pyStrip t
              then rebuilt_line today t ns else (pySplitNL blob).get ⟨i, hi⟩)
      ∧ (update_status today blob t ns).2
          = (pySplitNL blob).any (fun l => pyStrip l == pyStrip t) := by
  obtain ⟨hsplit, hfound⟩ := update_status_spec today blob t ns hns
  refine ⟨by rw [hsplit, List.length_map], ?_, hfound⟩
  rw [hsplit, List.get?_map, List.get?_eq_get hi]
  rfl

theorem update_status_rewrites_every_match_witness :
    nlFree "Completado"
      ∧ (pySplitNL (update_status d0 "A\nA\nB" "A" "Completado").1).get? 1
          = some (rebuilt_line d0 "A" "Completado") := by
  have hns : nlFree ("Completado" : String) := by decide
  have hi : 1 < (pySplitNL "A\nA\nB").length := by decide
  have hc := update_status_rewrites_every_match d0 "A\nA\nB" "A" "Completado" hns 1 hi
  refine ⟨hns, ?_⟩
  rw [hc.2.1]
  have hg : (pySplitNL "A\nA\nB").get ⟨1, hi⟩ = "A" := rfl
  rw [hg, if_pos rfl]

/-- C9 counterexample: blank-line preservation fails for a status-change
operation whose target trims to the empty string — blank lines then match
and are rewritten: updating blob "A\n\nB" with target "" rewrites the blank
middle line to "[Completado] ". -/
theorem update_status_blank_line_cex :
    pyStrip ((pySplitNL "A\n\nB").get ⟨1, by decide⟩) = ""
      ∧ (update_status d0 "A\n\nB" "" "Completado").1 = "A\n[Completado] \nB"
      ∧ (pySplitNL (update_status d0 "A\n\nB" "" "Completado").1).get? 1
          = some "[Completado] "
      ∧ ("[Completado] " : String) ≠ "" := by decide

/-- C9 (amended): for every status-change operation whose target has
nonempty trimmed text (as every decoded task line does) and whose new
status contains no newline, empty and whitespace-only lines of the blob
pass through unchanged, in their original positions. -/
theorem update_status_preserves_blank_lines (today : PyDate) (blob t ns : String)
    (hns : nlFree ns) (ht : pyStrip t ≠ "") (i : Nat)
    (hi : i < (pySplitNL blob).length)
    (hblank : pyStrip ((pySplitNL blob).get ⟨i, hi⟩) = "") :
    (pySplitNL (update_status today blob t ns).1).length = (pySplitNL blob).length
      ∧ (pySplitNL (update_status today blob t ns).1).get? i
          = some ((pySplitNL blob).get ⟨i, hi⟩) := by
  obtain ⟨hsplit, -⟩ := update_status_spec today blob t ns hns
  refine ⟨by rw [hsplit, List.length_map], ?_⟩
  rw [hsplit, List.get?_map, List.get?_eq_get hi]
  have hne : pyStrip ((pySplitNL blob).get ⟨i, hi⟩) ≠ pyStrip t := by
    rw [hblank]
    exact fun e => ht e.symm
  simp only [Option.map_some']
  rw [if_neg hne]

theorem update_status_preserves_blank_lines_witness :
    nlFree "Completado"
      ∧ pyStrip ("A" : String) ≠ ""
      ∧ (pySplitNL (update_status d0 "A\n\nB" "A" "Completado").1).get? 1
          = some ((pySplitNL "A\n\nB").get ⟨1, by decide⟩) := by
  have hns : nlFree ("Completado" : String) := by decide
  have ht : pyStrip ("A" : String) ≠ "" := by decide
  have hi : 1 < (pySplitNL "A\n\nB").length := by decide
  have hblank : pyStrip ((pySplitNL "A\n\nB").get ⟨1, hi⟩) = "" := rfl
  exact ⟨hns, ht,
    (update_status_preserves_blank_lines d0 "A\n\nB" "A" "Completado" hns ht 1 hi
      hblank).2⟩

/-- C8: Idempotent status removal.  Applying the status-change operation
with the remove sentinel ("Quitar Estado", or the empty/falsy status) twice
in a row with the same target yields the same blob both times: the second
application returns the first result unchanged. -/
theorem update_status_remove_idempotent (today : PyDate) (blob t ns : String)
    (hns : ns = "Quitar Estado" ∨ ns = "") :
    (update_status today (update_status today blob t ns).1 t ns).1
      = (update_status today blob t ns).1 := by
  have hnl : nlFree ns := by rcases hns with rfl | rfl <;> decide
  obtain ⟨hsplit1, -⟩ := update_status_spec today blob t ns hnl
  obtain ⟨hsplit2, -⟩ :=
    update_status_spec today (update_status today blob t ns).1 t ns hnl
  have hff : (pySplitNL (update_status today blob t ns).1).map
      (fun l => if pyStrip l = pyStrip t then rebuilt_line today t ns else l)
      = pySplitNL (update_status today blob t ns).1 := by
    rw [hsplit1, List.map_map]
    apply List.map_congr_left
    intro x hx
    show (if pyStrip (if pyStrip x = pyStrip t then rebuilt_line today t ns else x)
        = pyStrip t then rebuilt_line today t ns
      else (if pyStrip x = pyStrip t then rebuilt_line today t ns else x))
      = (if pyStrip x = pyStrip t then rebuilt_line today t ns else x)
    by_cases h1 : pyStrip x = pyStrip t
    · rw [if_pos h1]
      exact ite_self _
    · rw [if_neg h1, if_neg h1]
  calc (update_status today (update_status today blob t ns).1 t ns).1
      = pyJoinNL (pySplitNL (update_status today (update_status today blob t ns).1
          t ns).1) := (pyJoinNL_pySplitNL _).symm
    _ = pyJoinNL (pySplitNL (update_status today blob t ns).1) := by
        rw [hsplit2, hff]
    _ = (update_status today blob t ns).1 := pyJoinNL_pySplitNL _

theorem update_status_remove_idempotent_witness :
    (update_status d0 "[Pendiente] A\nB" "[Pendiente] A" "Quitar Estado").1 = "A\nB"
      ∧ (update_status d0 "A\nB" "[Pendiente] A" "Quitar Estado").1 = "A\nB" := by
  have h1 : (update_status d0 "[Pendiente] A\nB" "[Pendiente] A"
      "Quitar Estado").1 = "A\nB" := by decide
  have hc := update_status_remove_idempotent d0 "[Pendiente] A\nB" "[Pendiente] A"
    "Quitar Estado" (Or.inl rfl)
  rw [h1] at hc
  exact ⟨h1, hc⟩

theorem process_partsE_eq (today : PyDate) (parts : List String) (ai : ActionItem) :
    _process_additional_partsE today ai parts
      = Except.ok (_process_additional_parts today ai parts) := by
  induction parts generalizing ai with
  | nil => rfl
  | cons p ps ih =>
    show List.foldlM (_process_one_partE today) ai (p :: ps)
        = Except.ok (List.foldl (_process_one_part today) ai (p :: ps))
    rw [List.foldlM_cons, List.foldl_cons]
    have hstep : _process_one_partE today ai p
        = Except.ok (_process_one_part today ai p) := by
      unfold _process_one_partE _process_one_part validate_date_format
      by_cases h1 : pyStartsWith p "@" = true
      · simp [h1]
      · simp only [h1]
        cases h2 : strptimeYMD p with
        | some d => simp [h2]
        | none => simp [h2]
    rw [hstep]
    exact ih _

/-- C3: Totality of decode.  ActionItemParser.parse is pure and total over
any string input: the variant parseE, which raises exactly where Python
could raise (the strptime call guarded by validate_date_format), never
errors and always returns the value of the total function parse — on every
input string, every evaluation date and every meeting back-reference. -/
theorem parse_total (today : PyDate) (line : String) (mid : Option Int)
    (mt : Option String) :
    parseE today line mid mt = Except.ok (parse today line mid mt) := by
  unfold parseE parse
  by_cases hl : 2 ≤ (partsOf line).length
  · simp only [hl, if_true]
    rw [process_partsE_eq]
    rfl
  · simp only [hl, if_false]
    rfl

theorem parse_eq (today : PyDate) (line : String) (mid : Option Int)
    (mt : Option String) :
    parse today line mid mt
      = _determine_final_status
          (if 2 ≤ (partsOf line).length then
            _process_additional_parts today
              { task := (partsOf line).headD ""
                original_full_text := pyStrip line
                text_for_reserialization := working_text line
                meeting_id := mid
                meeting_title := mt } (partsOf line).tail
          else
            { task := (partsOf line).headD ""
              original_full_text := pyStrip line
              text_for_reserialization := working_text line
              meeting_id := mid
              meeting_title := mt }) (bracket_status line) := rfl

theorem determine_final_status_terminal {ai : ActionItem} {osp : Option String}
    {sp : String} (h : osp = some sp)
    (hterm : sp = TaskStatus.COMPLETADO ∨ sp = TaskStatus.CANCELADO) :
    (_determine_final_status ai osp).status = sp
      ∧ (_determine_final_status ai osp).is_overdue = false := by
  subst h
  have htr : pyTruthy (some sp) = true := by
    rcases hterm with rfl | rfl <;> decide
  have ht2 : ((some sp).getD "" = TaskStatus.COMPLETADO
      || (some sp).getD "" = TaskStatus.CANCELADO) = true := by
    rcases hterm with rfl | rfl <;> decide
  unfold _determine_final_status
  rw [if_pos htr, if_pos ht2]
  exact ⟨rfl, rfl⟩

/-- C6: Terminal status suppresses the overdue flag.  For every line whose
bracket status resolves to the terminal values "Completado" or "Cancelado",
parse forces is_overdue to false and keeps the captured status verbatim,
regardless of the evaluation date and of any past due date. -/
theorem parse_terminal_status_not_overdue (today : PyDate) (line : String)
    (sp : String) (hsp : bracket_status line = some sp)
    (hterm : sp = TaskStatus.COMPLETADO ∨ sp = TaskStatus.CANCELADO) :
    (parse today line).status = sp ∧ (parse today line).is_overdue = false := by
  rw [parse_eq today line none none]
  exact determine_final_status_terminal hsp hterm

theorem parse_terminal_status_not_overdue_witness :
    bracket_status "[Completado] Ship it - @Ana - 2000-01-01" = some "Completado"
      ∧ (parse d0 "[Completado] Ship it - @Ana - 2000-01-01").status = "Completado"
      ∧ (parse d0 "[Completado] Ship it - @Ana - 2000-01-01").is_overdue = false := by
  have hsp : bracket_status "[Completado] Ship it - @Ana - 2000-01-01"
      = some "Completado" := by decide
  have hc := parse_terminal_status_not_overdue d0
    "[Completado] Ship it - @Ana - 2000-01-01" "Completado" hsp (Or.inl rfl)
  exact ⟨hsp, hc.1, hc.2⟩

theorem process_one_part_at {today : PyDate} {ai : ActionItem} {p : String}
    (h : pyStartsWith p "@" = true) :
    _process_one_part today ai p = { ai with assignee := some ⟨p.data.drop 1⟩ } := by
  unfold _process_one_part
  rw [if_pos h]

theorem process_one_part_date {today : PyDate} {ai : ActionItem} {p : String}
    {d : PyDate} (h1 : pyStartsWith p "@" = false) (hd : strptimeYMD p = some d) :
    _process_one_part today ai p
      = (if pyDateLt d today then
          { ai with due_date_str := some p, is_overdue := true }
        else { ai with due_date_str := some p }) := by
  unfold _process_one_part
  rw [if_neg (by rw [h1]; exact Bool.false_ne_true), hd]

theorem process_one_part_other {today : PyDate} {ai : ActionItem} {p : String}
    (h1 : pyStartsWith p "@" = false) (hd : strptimeYMD p = none)
    (h4 : (pyTruthy ai.assignee && !pyTruthy ai.due_date_str) = false) :
    _process_one_part today ai p = ai := by
  unfold _process_one_part
  rw [if_neg (by rw [h1]; exact Bool.false_ne_true), hd,
    if_neg (by rw [h4]; exact Bool.false_ne_true)]

/-- C10: a later "@"-segment overwrites the assignee.  For every line whose
working text splits into three segments with both extra segments starting
with "@", the decoded assignee equals the last segment with its "@"
stripped — the earlier one is discarded — and the due date is absent. -/
theorem parse_later_at_segment_overwrites (today : PyDate) (line : String)
    (t p1 p2 : String) (hparts : partsOf line = [t, p1, p2])
    (h1 : pyStartsWith p1 "@" = true) (h2 : pyStartsWith p2 "@" = true) :
    (parse today line).assignee = some ⟨p2.data.drop 1⟩
      ∧ (parse today line).due_date_str = none := by
  have he : parse today line
      = _determine_final_status
          (_process_one_part today (_process_one_part today
            { task := t
              original_full_text := pyStrip line
              text_for_reserialization := working_text line } p1) p2)
          (bracket_status line) := by
    rw [parse_eq today line none none, hparts]
    rfl
  rw [he, process_one_part_at h1, process_one_part_at h2]
  have hpres := determine_final_status_preserves
    { task := t
      original_full_text := pyStrip line
      text_for_reserialization := working_text line
      assignee := some ⟨p2.data.drop 1⟩ } (bracket_status line)
  exact ⟨hpres.2.1, hpres.2.2.1⟩

theorem parse_later_at_segment_overwrites_witness :
    partsOf "T - @A - @B" = ["T", "@A", "@B"]
      ∧ (parse d0 "T - @A - @B").assignee = some "B"
      ∧ (parse d0 "T - @A - @B").due_date_str = none := by
  have hparts : partsOf "T - @A - @B" = ["T", "@A", "@B"] := by decide
  have hc := parse_later_at_segment_overwrites d0 "T - @A - @B" "T" "@A" "@B"
    hparts (by decide) (by decide)
  exact ⟨hparts, hc.1, hc.2⟩

/-- C5 counterexample: decoding "Task - Bob", whose 2nd segment "Bob" is
neither "@"-prefixed nor a valid date, yields NO assignee — the segment is
dropped, not treated as assignee text as the claim states. -/
theorem parse_second_segment_cex :
    partsOf "Task - Bob" = ["Task", "Bob"]
      ∧ pyStartsWith "Bob" "@" = false
      ∧ validate_date_format "Bob" = false
      ∧ (parse d0 "Task - Bob").assignee = none
      ∧ (parse d0 "Task - Bob").assignee ≠ some "Bob" := by decide

/-- C5 (amended): for every line whose working text splits into exactly two
segments, the 2nd segment is interpreted as the assignee when it starts
with "@" (the "@" is stripped), as the due date iff it validates as
YYYY-MM-DD, and otherwise it is DISCARDED: the decoded assignee stays
absent (it is appended to an assignee only when one is already set, which
cannot happen for the 2nd segment). -/
theorem parse_second_segment_interpretation (today : PyDate) (line : String)
    (t p1 : String) (hparts : partsOf line = [t, p1]) :
    (pyStartsWith p1 "@" = true →
        (parse today line).assignee = some ⟨p1.data.drop 1⟩
          ∧ (parse today line).due_date_str = none)
      ∧ (pyStartsWith p1 "@" = false → validate_date_format p1 = true →
          (parse today line).due_date_str = some p1
            ∧ (parse today line).assignee = none)
      ∧ (pyStartsWith p1 "@" = false → validate_date_format p1 = false →
          (parse today line).assignee = none
            ∧ (parse today line).due_date_str = none) := by
  have he : parse today line
      = _determine_final_status
          (_process_one_part today
            { task := t
              original_full_text := pyStrip line
              text_for_reserialization := working_text line } p1)
          (bracket_status line) := by
    rw [parse_eq today line none none, hparts]
    rfl
  refine ⟨?_, ?_, ?_⟩
  · intro h1
    rw [he, process_one_part_at h1]
    have hpres := determine_final_status_preserves
      { task := t
        original_full_text := pyStrip line
        text_for_reserialization := working_text line
        assignee := some ⟨p1.data.drop 1⟩ } (bracket_status line)
    exact ⟨hpres.2.1, hpres.2.2.1⟩
  · intro h1 hv
    obtain ⟨d, hd⟩ := Option.isSome_iff_exists.mp hv
    rw [he, process_one_part_date h1 hd]
    by_cases h3 : pyDateLt d today = true
    · rw [if_pos h3]
      have hpres := determine_final_status_preserves
        { task := t
          original_full_text := pyStrip line
          text_for_reserialization := working_text line
          due_date_str := some p1
          is_overdue := true } (bracket_status line)
      exact ⟨hpres.2.2.1, hpres.2.1⟩
    · rw [if_neg h3]
      have hpres := determine_final_status_preserves
        { task := t
          original_full_text := pyStrip line
          text_for_reserialization := working_text line
          due_date_str := some p1 } (bracket_status line)
      exact ⟨hpres.2.2.1, hpres.2.1⟩
  · intro h1 hv
    have hd : strptimeYMD p1 = none := by
      unfold validate_date_format at hv
      cases hs : strptimeYMD p1
      · rfl
      · rw [hs] at hv; simp at hv
    have hstep : _process_one_part today
        { task := t
          original_full_text := pyStrip line
          text_for_reserialization := working_text line } p1
        = { task := t
            original_full_text := pyStrip line
            text_for_reserialization := working_text line } :=
      process_one_part_other h1 hd rfl
    rw [he, hstep]
    have hpres := determine_final_status_preserves
      { task := t
        original_full_text := pyStrip line
        text_for_reserialization := working_text line } (bracket_status line)
    exact ⟨hpres.2.1, hpres.2.2.1⟩

theorem parse_second_segment_interpretation_witness :
    partsOf "Task - Bob" = ["Task", "Bob"]
      ∧ (parse d0 "Task - Bob").assignee = none
      ∧ (parse d0 "Task - Bob").due_date_str = none
      ∧ (parse d0 "Task - @Ana").assignee = some "Ana"
      ∧ (parse d0 "Task - 2024-12-25").due_date_str = some "2024-12-25" := by
  have hp1 : partsOf "Task - Bob" = ["Task", "Bob"] := by decide
  have h1 := (parse_second_segment_interpretation d0 "Task - Bob" "Task" "Bob"
    hp1).2.2 (by decide) (by decide)
  have h2 := (parse_second_segment_interpretation d0 "Task - @Ana" "Task" "@Ana"
    (by decide)).1 (by decide)
  have h3 := (parse_second_segment_interpretation d0 "Task - 2024-12-25" "Task"
    "2024-12-25" (by decide)).2.1 (by decide) (by decide)
  exact ⟨hp1, h1.1, h1.2, h2.1, h3.1⟩

theorem determine_final_status_none (ai : ActionItem) :
    _determine_final_status ai none
      = (if ai.is_overdue then { ai with status := TaskStatus.VENCIDO }
        else if pyTruthy ai.due_date_str then
          { ai with status := TaskStatus.PENDIENTE }
        else { ai with status := TaskStatus.ABIERTO }) := by
  unfold _determine_final_status
  rw [if_neg (by decide : ¬(pyTruthy none = true))]

theorem tail_eq_nil_of_short {l : List String} (h : ¬2 ≤ l.length) : l.tail = [] := by
  cases l with
  | nil => rfl
  | cons x t =>
    cases t with
    | nil => rfl
    | cons y t2 =>
      exfalso
      apply h
      simp [List.length_cons]

/-- C7 counterexample: the default status ladder fails when an earlier
segment carries a past date and a later one a future date — for
"Buy milk - 2000-01-01 - 2999-01-01" (today 2026-10-12) the decoded due
date is the future "2999-01-01", yet the status is "Vencido" and isOverdue
is true, not "Pendiente" with isOverdue false as the claim requires for a
found due date that lies in the future. -/
theorem parse_status_ladder_cex :
    bracket_status "Buy milk - 2000-01-01 - 2999-01-01" = none
      ∧ (parse d0 "Buy milk - 2000-01-01 - 2999-01-01").due_date_str
          = some "2999-01-01"
      ∧ pyDateLt ⟨2999, 1, 1⟩ d0 = false
      ∧ (parse d0 "Buy milk - 2000-01-01 - 2999-01-01").status = "Vencido"
      ∧ (parse d0 "Buy milk - 2000-01-01 - 2999-01-01").is_overdue = true
      ∧ ("Vencido" : String) ≠ "Pendiente" := by decide

/-- C7 (amended): default status ladder for a line with no bracket status.
(a) If no due date was found, the status is "Abierto (sin fecha)" and
isOverdue is false.  (b) If a due date was found and NO date-shaped segment
of the line lies strictly in the past, the status is "Pendiente" and
isOverdue is false.  (c) If some date-shaped segment lies strictly in the
past, the status is "Vencido" and isOverdue is true.  (The original claim's
clause (b), keyed only on the final due date being today or future, fails
when an earlier segment carried a past date; see the counterexample.) -/
theorem parse_default_status_ladder (today : PyDate) (line : String)
    (hosp : bracket_status line = none) :
    ((parse today line).due_date_str = none →
        (parse today line).status = TaskStatus.ABIERTO
          ∧ (parse today line).is_overdue = false)
      ∧ ((partsOf line).tail.all (fun p => !partIsPastDate today p) = true →
          (parse today line).due_date_str.isSome = true →
          (parse today line).status = TaskStatus.PENDIENTE
            ∧ (parse today line).is_overdue = false)
      ∧ ((partsOf line).tail.any (partIsPastDate today) = true →
          (parse today line).status = TaskStatus.VENCIDO
            ∧ (parse today line).is_overdue = true) := by
  have hpe := parse_eq today line none none
  rw [hosp] at hpe
  by_cases hlen : 2 ≤ (partsOf line).length
  · rw [if_pos hlen] at hpe
    set ai0 : ActionItem :=
      { task := (partsOf line).headD ""
        original_full_text := pyStrip line
        text_for_reserialization := working_text line } with hai0
    set A := _process_additional_parts today ai0 (partsOf line).tail with hAdef
    have hpres := determine_final_status_preserves A none
    have hover : A.is_overdue = (partsOf line).tail.any (partIsPastDate today) := by
      rw [hAdef, process_parts_is_overdue]
      show (false || _) = _
      rw [Bool.false_or]
    have hdueA : (parse today line).due_date_str = A.due_date_str := by
      rw [hpe]
      exact hpres.2.2.1
    have hvalid : ∀ s, A.due_date_str = some s → validate_date_format s = true := by
      rw [hAdef]
      exact process_parts_due_valid (fun s hs => by cases hs)
    have hl := determine_final_status_none A
    refine ⟨?_, ?_, ?_⟩
    · intro hdue
      rw [hdueA] at hdue
      have hov : A.is_overdue = false := by
        rw [hAdef] at hdue ⊢
        exact process_parts_overdue_of_due_none hdue
      rw [hpe, hl, if_neg (by rw [hov]; exact Bool.false_ne_true),
        if_neg (by rw [hdue]; exact (by decide : ¬(pyTruthy none = true)))]
      exact ⟨rfl, hov⟩
    · intro hall hsome
      have hanyf : (partsOf line).tail.any (partIsPastDate today) = false := by
        rw [List.any_eq_false]
        intro p hp
        have hx := List.all_eq_true.mp hall p hp
        rw [Bool.not_eq_eq_eq_not] at hx
        rw [hx]
        exact Bool.false_ne_true
      have hov : A.is_overdue = false := by rw [hover, hanyf]
      rw [hdueA] at hsome
      obtain ⟨s, hs⟩ := Option.isSome_iff_exists.mp hsome
      have htruthy : pyTruthy A.due_date_str = true := by
        rw [hs]
        show (!s.isEmpty) = true
        rw [validate_not_empty (hvalid s hs)]
        rfl
      rw [hpe, hl, if_neg (by rw [hov]; exact Bool.false_ne_true), if_pos htruthy]
      exact ⟨rfl, hov⟩
    · intro hany
      have hov : A.is_overdue = true := by rw [hover, hany]
      rw [hpe, hl, if_pos hov]
      exact ⟨rfl, hov⟩
  · rw [if_neg hlen] at hpe
    set ai0 : ActionItem :=
      { task := (partsOf line).headD ""
        original_full_text := pyStrip line
        text_for_reserialization := working_text line } with hai0
    have hl := determine_final_status_none ai0
    have hdue0 : ai0.due_date_str = none := rfl
    have hov0 : ai0.is_overdue = false := rfl
    have htl := tail_eq_nil_of_short hlen
    refine ⟨?_, ?_, ?_⟩
    · intro hdue
      rw [hpe, hl, if_neg (by rw [hov0]; exact Bool.false_ne_true),
        if_neg (by rw [hdue0]; exact (by decide : ¬(pyTruthy none = true)))]
      exact ⟨rfl, hov0⟩
    · intro hall hsome
      exfalso
      have hd : (parse today line).due_date_str = none := by
        rw [hpe]
        exact (determine_final_status_preserves ai0 none).2.2.1
      rw [hd] at hsome
      simp at hsome
    · intro hany
      rw [htl] at hany
      simp at hany

theorem parse_default_status_ladder_witness :
    bracket_status "Buy milk - 2000-01-01" = none
      ∧ (parse d0 "Buy milk").status = "Abierto (sin fecha)"
      ∧ (parse d0 "Buy milk - 2999-01-01").status = "Pendiente"
      ∧ (parse d0 "Buy milk - 2999-01-01").is_overdue = false
      ∧ (parse d0 "Buy milk - 2000-01-01").status = "Vencido"
      ∧ (parse d0 "Buy milk - 2000-01-01").is_overdue = true := by
  have h0 : bracket_status "Buy milk - 2000-01-01" = none := by decide
  have ha := (parse_default_status_ladder d0 "Buy milk" (by decide)).1 (by decide)
  have hb := (parse_default_status_ladder d0 "Buy milk - 2999-01-01"
    (by decide)).2.1 (by decide) (by decide)
  have hc := (parse_default_status_ladder d0 "Buy milk - 2000-01-01" h0).2.2
    (by decide)
  exact ⟨h0, ha.1, hb.1, hb.2, hc.1, hc.2⟩

theorem statusBracketMatch_eq_none {s : String}
    (h : ∀ rest, s.data ≠ '[' :: rest) : statusBracketMatch s = none := by
  unfold statusBracketMatch
  split
  · next rest heq => exact absurd heq (h rest)
  · rfl

theorem pyStrip_eq_self_of_heads {s : String} (h1 : headNoWS s.data = true)
    (h2 : headNoWS s.data.reverse = true) : pyStrip s = s := by
  unfold pyStrip
  rw [pyStripL_of_headNoWS h1 h2]

theorem headNoWS_rev_append {l r : List Char} (hr : r ≠ []) :
    headNoWS (l ++ r).reverse = headNoWS r.reverse := by
  rw [List.reverse_append]
  exact headNoWS_append (fun e => hr (by simpa using e))

theorem headNoWS_rev_at_cons {a : String} (h : pyStrip a = a) :
    headNoWS ('@' :: a.data).reverse = true := by
  have hda : pyStripL a.data = a.data := congrArg String.data h
  rw [List.reverse_cons]
  cases hd : a.data with
  | nil => rfl
  | cons c t =>
    have hne : (c :: t).reverse ≠ [] := by simp
    rw [headNoWS_append hne]
    have h2 := headNoWS_rev_of_pyStripL_eq hda
    rw [hd] at h2
    exact h2

theorem pyStrip_at_cons {a : String} (h : pyStrip a = a) :
    pyStrip ⟨'@' :: a.data⟩ = ⟨'@' :: a.data⟩ := by
  apply pyStrip_eq_self_of_heads
  · rfl
  · exact headNoWS_rev_at_cons h

theorem partsOfText_one {t : String} (h0 : splitOnceDash t.data = none) :
    partsOfText t = [pyStrip t] := by
  unfold partsOfText
  rw [h0]

theorem partsOfText_two {t : String} {x y : List Char}
    (h0 : splitOnceDash t.data = some (x, y)) (h1 : splitOnceDash y = none) :
    partsOfText t = [pyStrip ⟨x⟩, pyStrip ⟨y⟩] := by
  unfold partsOfText
  rw [h0]
  simp only [h1]

theorem partsOfText_three {t : String} {x y : List Char} {b r2 : List Char}
    (h0 : splitOnceDash t.data = some (x, y))
    (h1 : splitOnceDash y = some (b, r2)) :
    partsOfText t = [pyStrip ⟨x⟩, pyStrip ⟨b⟩, pyStrip ⟨r2⟩] := by
  unfold partsOfText
  rw [h0]
  simp only [h1]

theorem splitOnceDash_cons_none {c : Char} {l : List Char} (hc : c ≠ ' ')
    (h : splitOnceDash l = none) : splitOnceDash (c :: l) = none := by
  have h0 : ((' ' : Char) == c) = false :=
    beq_eq_false_iff_ne.mpr (fun e => hc e.symm)
  have hp : sepDash.isPrefixOf (c :: l) = false := by
    simp [sepDash, List.isPrefixOf, h0]
  conv_lhs => unfold splitOnceDash
  rw [if_neg (by rw [hp]; exact Bool.false_ne_true), h]
  rfl

theorem splitOnceDash_cons_some {c : Char} {l x y : List Char} (hc : c ≠ ' ')
    (h : splitOnceDash l = some (x, y)) :
    splitOnceDash (c :: l) = some (c :: x, y) := by
  have h0 : ((' ' : Char) == c) = false :=
    beq_eq_false_iff_ne.mpr (fun e => hc e.symm)
  have hp : sepDash.isPrefixOf (c :: l) = false := by
    simp [sepDash, List.isPrefixOf, h0]
  conv_lhs => unfold splitOnceDash
  rw [if_neg (by rw [hp]; exact Bool.false_ne_true), h]
  rfl

theorem strptime_shape {s : String} (h : validate_date_format s = true) :
    ∃ ys ms ds : List Char,
      s.data = ys ++ '-' :: (ms ++ '-' :: ds)
        ∧ ys ≠ [] ∧ ds ≠ []
        ∧ (∀ c ∈ ys, c.isDigit = true) ∧ (∀ c ∈ ms, c.isDigit = true)
        ∧ (∀ c ∈ ds, c.isDigit = true) := by
  unfold validate_date_format strptimeYMD at h
  have hjoin := (joinCh_splitCh '-' s.data).symm
  cases h0 : splitCh '-' s.data with
  | nil =>
    rw [h0] at h
    exact absurd (show (none : Option PyDate).isSome = true from h) (by simp)
  | cons ys t0 =>
    cases t0 with
    | nil =>
      rw [h0] at h
      exact absurd (show (none : Option PyDate).isSome = true from h) (by simp)
    | cons ms t1 =>
      cases t1 with
      | nil =>
        rw [h0] at h
        exact absurd (show (none : Option PyDate).isSome = true from h) (by simp)
      | cons ds t2 =>
        cases t2 with
        | cons z t3 =>
          rw [h0] at h
          exact absurd (show (none : Option PyDate).isSome = true from h) (by simp)
        | nil =>
          rw [h0] at h
          rw [h0] at hjoin
          have h2 : (if (ys.length = 4 && ys.all Char.isDigit
              && 1 ≤ ms.length && ms.length ≤ 2 && ms.all Char.isDigit
              && 1 ≤ ds.length && ds.length ≤ 2 && ds.all Char.isDigit : Bool)
            then
              (if (1 ≤ digitsVal ys && 1 ≤ digitsVal ms && digitsVal ms ≤ 12
                  && 1 ≤ digitsVal ds && digitsVal ds ≤ 31
                  && digitsVal ds ≤ daysInMonth (digitsVal ys) (digitsVal ms)
                  : Bool) then
                some (⟨digitsVal ys, digitsVal ms, digitsVal ds⟩ : PyDate)
              else none)
            else none).isSome = true := h
          split at h2
          · next hc =>
            simp only [Bool.and_eq_true, decide_eq_true_eq,
              List.all_eq_true] at hc
            obtain ⟨⟨⟨⟨⟨⟨⟨hy4, hyd⟩, hm1⟩, hm2⟩, hmd⟩, hd1⟩, hd2⟩, hdd⟩ := hc
            refine ⟨ys, ms, ds, ?_, ?_, ?_, ?_, ?_, ?_⟩
            · rw [hjoin]
              rfl
            · intro e
              rw [e] at hy4
              simp at hy4
            · intro e
              rw [e] at hd1
              simp at hd1
            · exact hyd
            · exact hmd
            · exact hdd
          · simp at h2

theorem not_isPySpace_of_digit_or_dash {c : Char}
    (h : c.isDigit = true ∨ c = '-') : isPySpace c = false := by
  cases hv : isPySpace c with
  | false => rfl
  | true =>
    exfalso
    unfold isPySpace at hv
    simp only [Bool.or_eq_true, decide_eq_true_eq] at hv
    rcases h with hdig | rfl
    · rcases hv with ((((rfl | rfl) | rfl) | rfl) | rfl) | rfl <;>
        exact absurd hdig (by decide)
    · rcases hv with ((((hv | hv) | hv) | hv) | hv) | hv <;>
        exact absurd hv (by decide)

theorem valid_date_char {s : String} {c : Char} (h : validate_date_format s = true)
    (hc : c ∈ s.data) : c.isDigit = true ∨ c = '-' := by
  obtain ⟨ys, ms, ds, hshape, -, -, hy, hm, hd2⟩ := strptime_shape h
  rw [hshape] at hc
  rcases List.mem_append.mp hc with h1 | h1
  · exact Or.inl (hy c h1)
  · rcases List.mem_cons.mp h1 with h2 | h2
    · exact Or.inr h2
    · rcases List.mem_append.mp h2 with h3 | h3
      · exact Or.inl (hm c h3)
      · rcases List.mem_cons.mp h3 with h4 | h4
        · exact Or.inr h4
        · exact Or.inl (hd2 c h4)

theorem valid_date_facts {s : String} (h : validate_date_format s = true) :
    s.data ≠ [] ∧ pyStrip s = s ∧ splitOnceDash s.data = none
      ∧ endsSpDash s.data = false ∧ pyStartsWith s "@" = false := by
  obtain ⟨ys, ms, ds, hshape, hys, hds, -, -, -⟩ := strptime_shape h
  have hne : s.data ≠ [] := by
    rw [hshape]
    cases ys with
    | nil => exact absurd rfl hys
    | cons a t => simp
  have hnospace : (' ' : Char) ∉ s.data := fun hm =>
    absurd (valid_date_char h hm) (by decide)
  have hnosep : splitOnceDash s.data = none := splitOnceDash_of_no_space hnospace
  have hstrip : pyStrip s = s := by
    apply pyStrip_eq_self_of_heads
    · cases hd : s.data with
      | nil => rfl
      | cons a t =>
        show (!isPySpace a) = true
        rw [not_isPySpace_of_digit_or_dash
          (valid_date_char h (hd ▸ List.mem_cons_self a t))]
        rfl
    · cases hd : s.data.reverse with
      | nil => rfl
      | cons a t =>
        show (!isPySpace a) = true
        have hmem : a ∈ s.data := by
          rw [← List.mem_reverse, hd]
          exact List.mem_cons_self a t
        rw [not_isPySpace_of_digit_or_dash (valid_date_char h hmem)]
        rfl
  have hends : endsSpDash s.data = false := by
    cases hv : endsSpDash s.data with
    | false => rfl
    | true =>
      exfalso
      unfold endsSpDash at hv
      have hmem : (' ' : Char) ∈ s.data.reverse := by
        cases hr : s.data.reverse with
        | nil => rw [hr] at hv; simp [List.isPrefixOf] at hv
        | cons a t =>
          cases t with
          | nil => rw [hr] at hv; simp [List.isPrefixOf] at hv
          | cons b t2 =>
            rw [hr] at hv
            simp only [List.isPrefixOf, Bool.and_eq_true, beq_iff_eq] at hv
            rw [← hv.2.1]
            exact List.mem_cons_of_mem a (List.mem_cons_self ' ' t2)
      exact hnospace (List.mem_reverse.mp hmem)
  have hat : pyStartsWith s "@" = false := by
    cases hv : pyStartsWith s "@" with
    | false => rfl
    | true =>
      exfalso
      unfold pyStartsWith at hv
      have hlit : ("@" : String).data = ['@'] := rfl
      rw [hlit] at hv
      have hmem : ('@' : Char) ∈ s.data := by
        cases hd : s.data with
        | nil => rw [hd] at hv; simp [List.isPrefixOf] at hv
        | cons a t =>
          rw [hd] at hv
          simp only [List.isPrefixOf, Bool.and_eq_true, beq_iff_eq] at hv
          rw [hv.1]
          exact List.mem_cons_self a t
      exact absurd (valid_date_char h hmem) (by decide)
  exact ⟨hne, hstrip, hnosep, hends, hat⟩

theorem statusBracketMatch_none_of_startsWith {s : String}
    (h : pyStartsWith s "[" = false) : statusBracketMatch s = none := by
  apply statusBracketMatch_eq_none
  intro rest he
  unfold pyStartsWith at h
  have hlit : ("[" : String).data = ['['] := rfl
  rw [hlit, he] at h
  simp [List.isPrefixOf] at h

theorem pyStartsWith_at_cons (a : String) : pyStartsWith ⟨'@' :: a.data⟩ "@" = true := by
  unfold pyStartsWith
  have hlit : ("@" : String).data = ['@'] := rfl
  rw [hlit]
  simp [List.isPrefixOf]

theorem head_ne_bracket {s : String} {c0 : Char} {t0 : List Char}
    (hd : s.data = c0 :: t0) (h : pyStartsWith s "[" = false) : c0 ≠ '[' := by
  intro e
  subst e
  unfold pyStartsWith at h
  have hlb : ("[" : String).data = ['['] := rfl
  rw [hlb, hd] at h
  simp [List.isPrefixOf] at h

theorem statusBracketMatch_none_of_head {s : String} {c0 : Char} {t0 : List Char}
    (hd : s.data = c0 :: t0) (hc : c0 ≠ '[') : statusBracketMatch s = none := by
  apply statusBracketMatch_eq_none
  intro rest he
  rw [hd] at he
  injection he with h1 h2
  exact hc h1

/-- C4 counterexample: the round-trip fails for a task string that itself
contains the " - " separator followed by a date-shaped token.  The item
built from task "a - 2000-01-01" with no assignee and no due date encodes
to the line "a - 2000-01-01", which decodes to task "a" with due date
"2000-01-01" — neither the task nor the (absent) due date is reproduced. -/
theorem encode_decode_roundtrip_cex :
    encodeLine "a - 2000-01-01" none none = "a - 2000-01-01"
      ∧ (parse d0 (encodeLine "a - 2000-01-01" none none)).task = "a"
      ∧ (parse d0 (encodeLine "a - 2000-01-01" none none)).task ≠ "a - 2000-01-01"
      ∧ (parse d0 (encodeLine "a - 2000-01-01" none none)).due_date_str
          = some "2000-01-01"
      ∧ some "2000-01-01" ≠ (none : Option String) := by decide

/-- C4 (amended): encode/decode round-trip for well-formed components.  For
every item built from a task that is trim-stable, nonempty, free of the
" - " separator, not ending in " -" and not opening a bracket prefix, an
optional assignee that is trim-stable, free of " - " and not ending in
" -", and an optional due date that is a valid YYYY-MM-DD string, encoding
per the section-6 grammar and decoding with parse reproduces the task, the
assignee and the due date exactly.  (The original unconditional claim fails
for components that collide with the grammar's separators; see the
counterexample.) -/
theorem encode_decode_roundtrip (today : PyDate) (task : String)
    (assignee due : Option String)
    (ht1 : pyStrip task = task) (ht2 : task ≠ "")
    (ht3 : splitOnceDash task.data = none)
    (ht4 : endsSpDash task.data = false)
    (ht5 : pyStartsWith task "[" = false)
    (ha : ∀ a, assignee = some a →
      pyStrip a = a ∧ splitOnceDash a.data = none ∧ endsSpDash a.data = false)
    (hd : ∀ s, due = some s → validate_date_format s = true) :
    (parse today (encodeLine task assignee due)).task = task
      ∧ (parse today (encodeLine task assignee due)).assignee = assignee
      ∧ (parse today (encodeLine task assignee due)).due_date_str = due := by
  have htaskdata : pyStripL task.data = task.data := congrArg String.data ht1
  have hh1 : headNoWS task.data = true := headNoWS_of_pyStripL_eq htaskdata
  have hh2 : headNoWS task.data.reverse = true := headNoWS_rev_of_pyStripL_eq htaskdata
  have htne : task.data ≠ [] := fun e => ht2 (by rw [← string_mk_data task, e])
  obtain ⟨c0, t0, htd⟩ : ∃ c0 t0, task.data = c0 :: t0 := by
    cases hx : task.data with
    | nil => exact absurd hx htne
    | cons a b => exact ⟨a, b, rfl⟩
  have hc0 : c0 ≠ '[' := head_ne_bracket htd ht5
  have hemp : ("" : String).data = [] := rfl
  have hl3 : (" - " : String).data = sepDash := rfl
  have hl4 : (" - @" : String).data = sepDash ++ ['@'] := rfl
  rcases assignee with _ | a
  · rcases due with _ | dd
    · set enc := encodeLine task none none with hedef
      have henc : enc = task := by
        show task ++ "" ++ "" = task
        rw [String.append_empty, String.append_empty]
      have hps : pyStrip enc = enc := by rw [henc]; exact ht1
      have hb : statusBracketMatch (pyStrip enc) = none := by
        rw [hps, henc]
        exact statusBracketMatch_none_of_head htd hc0
      have hw : working_text enc = task := by
        unfold working_text
        rw [hb]
        show pyStrip enc = task
        rw [hps, henc]
      have hparts : partsOf enc = [task] := by
        unfold partsOf
        rw [hw, partsOfText_one ht3, ht1]
      have he : parse today enc
          = _determine_final_status
              { task := task
                original_full_text := pyStrip enc
                text_for_reserialization := working_text enc }
              (bracket_status enc) := by
        rw [parse_eq today enc none none, hparts]
        rfl
      rw [he]
      have hpres := determine_final_status_preserves
        { task := task
          original_full_text := pyStrip enc
          text_for_reserialization := working_text enc } (bracket_status enc)
      exact ⟨hpres.1, hpres.2.1, hpres.2.2.1⟩
    · obtain ⟨hdne, hdstrip, hdnosep, hdends, hdat⟩ := valid_date_facts (hd dd rfl)
      set enc := encodeLine task none (some dd) with hedef
      have hencdata : enc.data = task.data ++ sepDash ++ dd.data := by
        show (task ++ "" ++ (" - " ++ dd)).data = _
        rw [String.append_empty, String.data_append, String.data_append, hl3,
          List.append_assoc]
      have hsplit0 : splitOnceDash enc.data = some (task.data, dd.data) := by
        rw [hencdata]
        exact splitOnceDash_append dd.data ht3 ht4
      have hps : pyStrip enc = enc := by
        apply pyStrip_eq_self_of_heads
        · rw [hencdata, headNoWS_append (by simp [sepDash] : task.data ++ sepDash ≠ []),
            headNoWS_append htne]
          exact hh1
        · rw [hencdata, headNoWS_rev_append hdne]
          exact headNoWS_rev_of_pyStripL_eq (congrArg String.data hdstrip)
      have hhead : enc.data = c0 :: (t0 ++ sepDash ++ dd.data) := by
        rw [hencdata, htd]
        simp [List.cons_append]
      have hb : statusBracketMatch (pyStrip enc) = none := by
        rw [hps]
        exact statusBracketMatch_none_of_head hhead hc0
      have hw : working_text enc = enc := by
        unfold working_text
        rw [hb]
        exact hps
      have hparts : partsOf enc = [task, dd] := by
        unfold partsOf
        rw [hw, partsOfText_two hsplit0 hdnosep, string_mk_data task, ht1,
          string_mk_data dd, hdstrip]
      obtain ⟨d, hdd⟩ := Option.isSome_iff_exists.mp (hd dd rfl)
      have he : parse today enc
          = _determine_final_status
              (_process_one_part today
                { task := task
                  original_full_text := pyStrip enc
                  text_for_reserialization := working_text enc } dd)
              (bracket_status enc) := by
        rw [parse_eq today enc none none, hparts]
        rfl
      rw [he, process_one_part_date hdat hdd]
      by_cases h3 : pyDateLt d today = true
      · rw [if_pos h3]
        have hpres := determine_final_status_preserves
          { task := task
            original_full_text := pyStrip enc
            text_for_reserialization := working_text enc
            due_date_str := some dd
            is_overdue := true } (bracket_status enc)
        exact ⟨hpres.1, hpres.2.1, hpres.2.2.1⟩
      · rw [if_neg h3]
        have hpres := determine_final_status_preserves
          { task := task
            original_full_text := pyStrip enc
            text_for_reserialization := working_text enc
            due_date_str := some dd } (bracket_status enc)
        exact ⟨hpres.1, hpres.2.1, hpres.2.2.1⟩
  · obtain ⟨ha1, ha2, ha3⟩ := ha a rfl
    rcases due with _ | dd
    · set enc := encodeLine task (some a) none with hedef
      have hencdata : enc.data = task.data ++ sepDash ++ ('@' :: a.data) := by
        show (task ++ (" - @" ++ a) ++ "").data = _
        rw [String.append_empty, String.data_append, String.data_append, hl4]
        simp [List.append_assoc, List.cons_append]
      have hsplit0 : splitOnceDash enc.data = some (task.data, '@' :: a.data) := by
        rw [hencdata]
        exact splitOnceDash_append _ ht3 ht4
      have hsplit1 : splitOnceDash ('@' :: a.data) = none :=
        splitOnceDash_cons_none (by decide) ha2
      have hps : pyStrip enc = enc := by
        apply pyStrip_eq_self_of_heads
        · rw [hencdata, headNoWS_append (by simp [sepDash] : task.data ++ sepDash ≠ []),
            headNoWS_append htne]
          exact hh1
        · rw [hencdata, headNoWS_rev_append (by simp : '@' :: a.data ≠ [])]
          exact headNoWS_rev_at_cons ha1
      have hhead : enc.data = c0 :: (t0 ++ sepDash ++ ('@' :: a.data)) := by
        rw [hencdata, htd]
        simp [List.cons_append]
      have hb : statusBracketMatch (pyStrip enc) = none := by
        rw [hps]
        exact statusBracketMatch_none_of_head hhead hc0
      have hw : working_text enc = enc := by
        unfold working_text
        rw [hb]
        exact hps
      have hparts : partsOf enc = [task, ⟨'@' :: a.data⟩] := by
        unfold partsOf
        rw [hw, partsOfText_two hsplit0 hsplit1, string_mk_data task, ht1,
          pyStrip_at_cons ha1]
      have he : parse today enc
          = _determine_final_status
              (_process_one_part today
                { task := task
                  original_full_text := pyStrip enc
                  text_for_reserialization := working_text enc } ⟨'@' :: a.data⟩)
              (bracket_status enc) := by
        rw [parse_eq today enc none none, hparts]
        rfl
      rw [he, process_one_part_at (pyStartsWith_at_cons a)]
      have hpres := determine_final_status_preserves
        { task := task
          original_full_text := pyStrip enc
          text_for_reserialization := working_text enc
          assignee := some ⟨(⟨'@' :: a.data⟩ : String).data.drop 1⟩ }
        (bracket_status enc)
      exact ⟨hpres.1, hpres.2.1, hpres.2.2.1⟩
    · obtain ⟨hdne, hdstrip, hdnosep, hdends, hdat⟩ := valid_date_facts (hd dd rfl)
      set enc := encodeLine task (some a) (some dd) with hedef
      have hencdata : enc.data
          = task.data ++ sepDash ++ ('@' :: (a.data ++ sepDash ++ dd.data)) := by
        show (task ++ (" - @" ++ a) ++ (" - " ++ dd)).data = _
        rw [String.data_append, String.data_append, String.data_append,
          String.data_append, hl3, hl4]
        simp [List.append_assoc, List.cons_append]
      have hys : splitOnceDash (a.data ++ sepDash ++ dd.data)
          = some (a.data, dd.data) := splitOnceDash_append dd.data ha2 ha3
      have hsplit0 : splitOnceDash enc.data
          = some (task.data, '@' :: (a.data ++ sepDash ++ dd.data)) := by
        rw [hencdata]
        exact splitOnceDash_append _ ht3 ht4
      have hsplit1 : splitOnceDash ('@' :: (a.data ++ sepDash ++ dd.data))
          = some ('@' :: a.data, dd.data) :=
        splitOnceDash_cons_some (by decide) hys
      have hps : pyStrip enc = enc := by
        apply pyStrip_eq_self_of_heads
        · rw [hencdata, headNoWS_append (by simp [sepDash] : task.data ++ sepDash ≠ []),
            headNoWS_append htne]
          exact hh1
        · rw [hencdata,
            headNoWS_rev_append (by simp : '@' :: (a.data ++ sepDash ++ dd.data) ≠ []),
            List.reverse_cons,
            headNoWS_append (by simp [sepDash] : (a.data ++ sepDash ++ dd.data).reverse ≠ []),
            headNoWS_rev_append hdne]
          exact headNoWS_rev_of_pyStripL_eq (congrArg String.data hdstrip)
      have hhead : enc.data
          = c0 :: (t0 ++ sepDash ++ ('@' :: (a.data ++ sepDash ++ dd.data))) := by
        rw [hencdata, htd]
        simp [List.cons_append]
      have hb : statusBracketMatch (pyStrip enc) = none := by
        rw [hps]
        exact statusBracketMatch_none_of_head hhead hc0
      have hw : working_text enc = enc := by
        unfold working_text
        rw [hb]
        exact hps
      have hparts : partsOf enc = [task, ⟨'@' :: a.data⟩, dd] := by
        unfold partsOf
        rw [hw, partsOfText_three hsplit0 hsplit1, string_mk_data task, ht1,
          pyStrip_at_cons ha1, string_mk_data dd, hdstrip]
      obtain ⟨d, hdd⟩ := Option.isSome_iff_exists.mp (hd dd rfl)
      have he : parse today enc
          = _determine_final_status
              (_process_one_part today (_process_one_part today
                { task := task
                  original_full_text := pyStrip enc
                  text_for_reserialization := working_text enc } ⟨'@' :: a.data⟩) dd)
              (bracket_status enc) := by
        rw [parse_eq today enc none none, hparts]
        rfl
      rw [he, process_one_part_at (pyStartsWith_at_cons a),
        process_one_part_date hdat hdd]
      by_cases h3 : pyDateLt d today = true
      · rw [if_pos h3]
        have hpres := determine_final_status_preserves
          { task := task
            original_full_text := pyStrip enc
            text_for_reserialization := working_text enc
            assignee := some ⟨(⟨'@' :: a.data⟩ : String).data.drop 1⟩
            due_date_str := some dd
            is_overdue := true } (bracket_status enc)
        exact ⟨hpres.1, hpres.2.1, hpres.2.2.1⟩
      · rw [if_neg h3]
        have hpres := determine_final_status_preserves
          { task := task
            original_full_text := pyStrip enc
            text_for_reserialization := working_text enc
            assignee := some ⟨(⟨'@' :: a.data⟩ : String).data.drop 1⟩
            due_date_str := some dd } (bracket_status enc)
        exact ⟨hpres.1, hpres.2.1, hpres.2.2.1⟩

theorem encode_decode_roundtrip_witness :
    encodeLine "Ship it" (some "Ana") (some "2024-12-25")
        = "Ship it - @Ana - 2024-12-25"
      ∧ (parse d0 "Ship it - @Ana - 2024-12-25").task = "Ship it"
      ∧ (parse d0 "Ship it - @Ana - 2024-12-25").assignee = some "Ana"
      ∧ (parse d0 "Ship it - @Ana - 2024-12-25").due_date_str
          = some "2024-12-25" := by
  have henc : encodeLine "Ship it" (some "Ana") (some "2024-12-25")
      = "Ship it - @Ana - 2024-12-25" := by decide
  have hc := encode_decode_roundtrip d0 "Ship it" (some "Ana") (some "2024-12-25")
    (by decide) (by decide) (by decide) (by decide) (by decide)
    (fun a he => by
      injection he with h
      subst h
      exact ⟨by decide, by decide, by decide⟩)
    (fun s he => by
      injection he with h
      subst h
      decide)
  rw [henc] at hc
  exact ⟨henc, hc.1, hc.2.1, hc.2.2⟩
